import Mathlib

/-!
# Verification of the Pumper monitoring core

Shallow embedding of the band/range data model, the frequency-to-index
mapping, the volume aggregation, the spike/threshold state machine, and the
range-creation operations of the Pumper library (`src/unnamed/part_000`,
TypeScript).  JS numbers are modelled as exact rationals; the JS division of
a sum by a zero span (which produces a non-finite IEEE value, Infinity or
NaN) is modelled by `Option.none`, i.e. "no well-defined volume".
-/

set_option linter.dupNamespace false

/- The Batteries rational arithmetic primitives are `@[irreducible]`, which
blocks `decide`-style evaluation of the executable model on concrete inputs;
restore the default reducibility (this has no effect on soundness). -/
unseal Rat.mul Rat.add Rat.sub Rat.inv Rat.ofScientific

namespace Pumper

/-- JS `Math.round` on exact rationals: round half toward positive infinity,
`Math.round(x) = Math.floor(x + 0.5)`. -/
def jsRound (q : ℚ) : ℤ := (q + 1/2).floor

/-- `Rat.floor` (executable) agrees with Mathlib's order-theoretic `Int.floor`. -/
theorem ratFloor_eq_intFloor (q : ℚ) : q.floor = ⌊q⌋ := by
  rw [Rat.floor_def', Rat.floor_def]

/-- `jsRound` as an `Int.floor` expression, for order reasoning. -/
theorem jsRound_eq (q : ℚ) : jsRound q = ⌊q + 1/2⌋ := ratFloor_eq_intFloor _

/-- Frequency-to-bin-index mapping, from `updateFromData` lines 142-143:
`Math.round((freq / maxFreq) * (freqData.length - 1))`. -/
def indexFor (freq maxFreq : ℚ) (len : ℕ) : ℤ :=
  jsRound ((freq / maxFreq) * ((len : ℚ) - 1))

/-- JS `Array.prototype.slice` index resolution: a negative index is
relative to the end (clamped below at 0), a nonnegative index is clamped
above at the length. -/
def jsSliceBound (len : ℕ) (i : ℤ) : ℕ :=
  if i < 0 then ((len : ℤ) + i).toNat else min i.toNat len

/-- JS `l.slice(a, b)` on a list of sample values. -/
def jsSlice (l : List ℕ) (a b : ℤ) : List ℕ :=
  (l.drop (jsSliceBound l.length a)).take (jsSliceBound l.length b - jsSliceBound l.length a)

/-- The `Band` (frequency range) entity, fields in source order.  The
`Pumper` instance's own monitoring fields (`startFreq` … `isSpiking`) form
the same record, since `updateFromData` treats `Pumper | Band` uniformly. -/
structure Band where
  startFreq : ℚ
  endFreq : ℚ
  threshold : ℚ
  spikeTolerance : ℚ
  volScale : ℚ
  volume : ℚ
  isOverThreshold : Bool
  isSpiking : Bool
deriving DecidableEq, Repr

/-- `new Band(startFreq, endFreq, threshold, spikeTolerance, volScale)`:
volume starts at 0, both flags start false. -/
def newBand (startFreq endFreq threshold spikeTolerance volScale : ℚ) : Band :=
  ⟨startFreq, endFreq, threshold, spikeTolerance, volScale, 0, false, false⟩

/-- Observable hook invocations: `_onSpike(spikeAmount)` and `_onThreshold()`
(the latter computes `over = volume - threshold` internally). -/
inductive Event where
  | spike (amount : ℚ)
  | overThreshold (over : ℚ)
deriving DecidableEq, Repr

/-- Lines 142-145 of `updateFromData`: map the range to bin indices, sum the
slice, divide by the span, scale.  A zero span means JS divides by zero
(producing a non-finite value); the model returns `none` there. -/
def rawVolume (self : Band) (freqData : List ℕ) (maxFreq : ℚ) : Option ℚ :=
  let rangeStart := indexFor self.startFreq maxFreq freqData.length
  let rangeEnd := indexFor self.endFreq maxFreq freqData.length
  let total : ℕ := (jsSlice freqData rangeStart (rangeEnd + 1)).sum
  if rangeEnd - rangeStart = 0 then none
  else some (((total : ℚ) / (((rangeEnd - rangeStart) : ℤ) : ℚ)) * self.volScale)

/-- Lines 141-161: update volume and spike/threshold status for a `Band` (or
the `Pumper` itself), returning the new state and the hook invocations. -/
def updateFromData (self : Band) (freqData : List ℕ) (maxFreq : ℚ) :
    Option (Band × List Event) :=
  match rawVolume self freqData maxFreq with
  | none => none
  | some volume =>
    let spike := volume - self.volume
    some ({ self with
              volume := volume
              isSpiking := decide (self.spikeTolerance < spike)
              isOverThreshold := decide (self.threshold < volume) },
          (if self.spikeTolerance < spike then [Event.spike spike] else []) ++
          (if self.threshold < volume then [Event.overThreshold (volume - self.threshold)] else []))

/-- The `Pumper` (Monitor) state: its own monitoring record (`global`), the
sample rate last read from the audio context, the frequency-data buffer, and
the registered bands in creation order. -/
structure Pumper where
  global : Band
  sampleRate : ℚ
  freqData : List ℕ
  bands : List Band
deriving DecidableEq, Repr

/-- `get maxFreq() { return this.AUDIO.sampleRate / 2; }` -/
def maxFreq (p : Pumper) : ℚ := p.sampleRate / 2

/-- The constructor's monitoring state: `volume = 0`, flags false,
`threshold = DEFAULTS.threshold = 127`,
`spikeTolerance = DEFAULTS.spikeTolerance = 30`, `volScale = 1`. -/
def initPumper (start endF sampleRate : ℚ) : Pumper :=
  { global := ⟨start, endF, 127, 30, 1, 0, false, false⟩
    sampleRate := sampleRate
    freqData := []
    bands := [] }

/-- `createBand(start, end, threshold, spikeTolerance, volScale)`, lines
364-379: range-check against the current `maxFreq`, then append a fresh
`Band`.  A thrown `Pumper error` is modelled as `Except.error`; on error the
state is returned unchanged (the throw happens before the push). -/
def createBand (p : Pumper) (start endF threshold spikeTolerance volScale : ℚ) :
    Pumper × Except String Band :=
  if start < 0 ∨ maxFreq p < start then (p, Except.error "Invalid start frequency")
  else if endF < 0 ∨ maxFreq p < endF then (p, Except.error "Invalid end frequency")
  else if endF < start then
    (p, Except.error "Start frequency must be less than end frequency")
  else
    let band := newBand start endF threshold spikeTolerance volScale
    ({ p with bands := p.bands ++ [band] }, Except.ok band)

/-- Sub-range start for iteration `i` of `createBands`:
`start + (freqRange * i) / count - bleedVal`. -/
def bandStart (start endF bleed : ℚ) (count i : ℕ) : ℚ :=
  start + ((endF - start) * (i : ℚ)) / (count : ℚ) - ((endF - start) / (count : ℚ)) * bleed

/-- Sub-range end for iteration `i` of `createBands`:
`start + (freqRange * (i + 1)) / count + bleedVal`. -/
def bandEnd (start endF bleed : ℚ) (count i : ℕ) : ℚ :=
  start + ((endF - start) * ((i : ℚ) + 1)) / (count : ℚ) + ((endF - start) / (count : ℚ)) * bleed

/-- Volume scale for iteration `i` of `createBands`:
`volStart + (volRange * i) / count`. -/
def bandVol (volStart volEnd : ℚ) (count i : ℕ) : ℚ :=
  volStart + ((volEnd - volStart) * (i : ℚ)) / (count : ℚ)

/-- The band generated by iteration `i` of `createBands`. -/
def genBand (start endF bleed volStart volEnd : ℚ) (count : ℕ) (thr tol : ℚ) (i : ℕ) : Band :=
  newBand (bandStart start endF bleed count i) (bandEnd start endF bleed count i)
    thr tol (bandVol volStart volEnd count i)

/-- The bands generated by iterations `i, i+1, …, i+rem-1` of `createBands`. -/
def genBands (start endF bleed volStart volEnd : ℚ) (count : ℕ) (thr tol : ℚ)
    (i rem : ℕ) : List Band :=
  (List.range rem).map (fun j => genBand start endF bleed volStart volEnd count thr tol (i + j))

/-- The `for` loop of `createBands` (lines 409-418): iteration index `i`,
`rem` iterations left.  A throw from `createBand` propagates, keeping the
bands already pushed onto the state. -/
def goBands (start endF volStart volEnd bleed thr tol : ℚ) (count : ℕ) :
    Pumper → ℕ → ℕ → Pumper × Except String (List Band)
  | p, _, 0 => (p, Except.ok [])
  | p, i, rem + 1 =>
    match createBand p (bandStart start endF bleed count i) (bandEnd start endF bleed count i)
        thr tol (bandVol volStart volEnd count i) with
    | (p', Except.error e) => (p', Except.error e)
    | (p', Except.ok b) =>
      match goBands start endF volStart volEnd bleed thr tol count p' (i + 1) rem with
      | (p'', Except.error e) => (p'', Except.error e)
      | (p'', Except.ok bs) => (p'', Except.ok (b :: bs))

/-- `createBands(start, end, count, volStart, volEnd, bleed)`, lines 391-420:
range-check the overall interval, then create `count` sub-bands through
`createBand`, passing the Pumper's global threshold and spike tolerance. -/
def createBands (p : Pumper) (start endF : ℚ) (count : ℕ) (volStart volEnd bleed : ℚ) :
    Pumper × Except String (List Band) :=
  if start < 0 ∨ maxFreq p < start then (p, Except.error "Invalid start frequency")
  else if endF < 0 ∨ maxFreq p < endF then (p, Except.error "Invalid end frequency")
  else if endF < start then
    (p, Except.error "Start frequency must be less than end frequency")
  else
    goBands start endF volStart volEnd bleed p.global.threshold p.global.spikeTolerance
      count p 0 count

/-- The band-updating loop of `update` (lines 439-441), in registration
order, all against the same snapshot and `maxFreq`. -/
def updateBands (freqData : List ℕ) (mf : ℚ) : List Band → Option (List Band × List Event)
  | [] => some ([], [])
  | b :: bs =>
    match updateFromData b freqData mf with
    | none => none
    | some (b', evs) =>
      match updateBands freqData mf bs with
      | none => none
      | some (bs', evs') => some (b' :: bs', evs ++ evs')

/-- `update()` (lines 427-447): re-read the sample rate, take the fresh
spectrum snapshot, update the global state, then every band in order.  The
snapshot and sample rate are inputs from the external source. -/
def update (p : Pumper) (sampleRate : ℚ) (freqData : List ℕ) : Option (Pumper × List Event) :=
  let p' : Pumper := { p with sampleRate := sampleRate, freqData := freqData }
  match updateFromData p'.global freqData (maxFreq p') with
  | none => none
  | some (g', evs) =>
    match updateBands freqData (maxFreq p') p'.bands with
    | none => none
    | some (bands', evs') => some ({ p' with global := g', bands := bands' }, evs ++ evs')

/-- Spec-side definition (§4.2 wording): the sum of the spectrum samples at
indices `a` through `b` inclusive. -/
def inclusiveSum (data : List ℕ) (a b : ℕ) : ℕ :=
  ((data.drop a).take (b + 1 - a)).sum

/-- The band state produced by one `updateFromData` step whose computed
volume is `v` (value of lines 148-160). -/
def postBand (self : Band) (v : ℚ) : Band :=
  { self with
      volume := v
      isSpiking := decide (self.spikeTolerance < v - self.volume)
      isOverThreshold := decide (self.threshold < v) }

/-- The hook invocations of one `updateFromData` step whose computed volume
is `v`. -/
def postEvents (self : Band) (v : ℚ) : List Event :=
  (if self.spikeTolerance < v - self.volume then [Event.spike (v - self.volume)] else []) ++
  (if self.threshold < v then [Event.overThreshold (v - self.threshold)] else [])

instance {ε α : Type} [DecidableEq ε] [DecidableEq α] : DecidableEq (Except ε α) := by
  intro x y
  cases x <;> cases y
  case error.error a b =>
    exact if h : a = b then Decidable.isTrue (by rw [h])
      else Decidable.isFalse (fun hc => h (Except.error.inj hc))
  case error.ok a b => exact Decidable.isFalse (fun hc => Except.noConfusion hc)
  case ok.error a b => exact Decidable.isFalse (fun hc => Except.noConfusion hc)
  case ok.ok a b =>
    exact if h : a = b then Decidable.isTrue (by rw [h])
      else Decidable.isFalse (fun hc => h (Except.ok.inj hc))

/-- The `createBand` validation predicate relative to a nyquist limit
`mfq`: the three `if` guards of lines 372-374 all pass. -/
def validArgs (mfq s e : ℚ) : Prop :=
  ¬(s < 0 ∨ mfq < s) ∧ ¬(e < 0 ∨ mfq < e) ∧ ¬(e < s)

instance (mfq s e : ℚ) : Decidable (validArgs mfq s e) := by
  unfold validArgs
  infer_instance

/-- The §8 scenario spectrum snapshot. -/
def specData : List ℕ := [0, 0, 10, 200, 200, 10, 0, 0]

/-- A monitor at sample rate 200 (nyquist 100) with default global settings
on the range (0, 100) and one registered band (10, 90). -/
def exMonitor : Pumper :=
  { global := ⟨0, 100, 127, 30, 1, 0, false, false⟩
    sampleRate := 200
    freqData := []
    bands := [newBand 10 90 127 30 1] }

/-- A monitor at sample rate 190 (nyquist 95) with default global settings
and no bands, used for the `createBands` partial-mutation scenario. -/
def exMonitor95 : Pumper :=
  { global := ⟨0, 95, 127, 30, 1, 0, false, false⟩
    sampleRate := 190
    freqData := []
    bands := [] }

/-- A monitor at sample rate 200 (nyquist 100), no bands, used for the
sample-rate-decrease scenario. -/
def exMonitor100 : Pumper :=
  { global := ⟨0, 50, 127, 30, 1, 0, false, false⟩
    sampleRate := 200
    freqData := []
    bands := [] }

/-! ## Helper lemmas about the JS arithmetic -/

theorem updateFromData_eq_none {self : Band} {data : List ℕ} {mf : ℚ}
    (hraw : rawVolume self data mf = none) :
    updateFromData self data mf = none := by
  simp only [updateFromData, hraw]

theorem updateFromData_eq_some {self : Band} {data : List ℕ} {mf : ℚ} {v : ℚ}
    (hraw : rawVolume self data mf = some v) :
    updateFromData self data mf = some (postBand self v, postEvents self v) := by
  simp only [updateFromData, hraw, postBand, postEvents]

theorem jsRound_nonneg {q : ℚ} (h : 0 ≤ q) : 0 ≤ jsRound q := by
  rw [jsRound_eq]
  exact Int.floor_nonneg.mpr (by linarith)

theorem jsRound_mono {q r : ℚ} (h : q ≤ r) : jsRound q ≤ jsRound r := by
  rw [jsRound_eq, jsRound_eq]
  exact Int.floor_le_floor (by linarith)

theorem jsRound_intCast (n : ℤ) : jsRound (n : ℚ) = n := by
  rw [jsRound_eq, add_comm, Int.floor_add_int]
  norm_num

theorem jsRound_le_int {q : ℚ} {n : ℤ} (h : q ≤ (n : ℚ)) : jsRound q ≤ n := by
  calc jsRound q ≤ jsRound (n : ℚ) := jsRound_mono h
    _ = n := jsRound_intCast n

theorem indexFor_zero (mf : ℚ) (len : ℕ) : indexFor 0 mf len = 0 := by
  have : ((0 : ℚ) / mf) * ((len : ℚ) - 1) = 0 := by simp
  rw [indexFor, this]
  exact jsRound_intCast 0

theorem indexFor_max {mf : ℚ} (hmf : mf ≠ 0) (len : ℕ) :
    indexFor mf mf len = (len : ℤ) - 1 := by
  rw [indexFor, div_self hmf, one_mul]
  have : ((len : ℚ) - 1) = (((len : ℤ) - 1 : ℤ) : ℚ) := by push_cast; ring
  rw [this]
  exact jsRound_intCast _

theorem indexFor_mono {mf f g : ℚ} (hmf : 0 < mf) {len : ℕ} (hlen : 1 ≤ len)
    (h : f ≤ g) : indexFor f mf len ≤ indexFor g mf len := by
  apply jsRound_mono
  have hL : (0 : ℚ) ≤ (len : ℚ) - 1 := by
    have : (1 : ℚ) ≤ (len : ℚ) := by exact_mod_cast hlen
    linarith
  apply mul_le_mul_of_nonneg_right _ hL
  exact (div_le_div_iff_of_pos_right hmf).mpr h

theorem indexFor_nonneg {mf f : ℚ} (hmf : 0 < mf) {len : ℕ} (hf : 0 ≤ f)
    (hlen : 1 ≤ len) : 0 ≤ indexFor f mf len := by
  apply jsRound_nonneg
  have hL : (0 : ℚ) ≤ (len : ℚ) - 1 := by
    have : (1 : ℚ) ≤ (len : ℚ) := by exact_mod_cast hlen
    linarith
  exact mul_nonneg (div_nonneg hf hmf.le) hL

theorem indexFor_le {mf f : ℚ} (hmf : 0 < mf) {len : ℕ} (hf : f ≤ mf)
    (hlen : 1 ≤ len) : indexFor f mf len ≤ (len : ℤ) - 1 := by
  apply jsRound_le_int
  have hL : (0 : ℚ) ≤ (len : ℚ) - 1 := by
    have : (1 : ℚ) ≤ (len : ℚ) := by exact_mod_cast hlen
    linarith
  have h1 : f / mf ≤ 1 := (div_le_one hmf).mpr hf
  calc (f / mf) * ((len : ℚ) - 1) ≤ 1 * ((len : ℚ) - 1) :=
        mul_le_mul_of_nonneg_right h1 hL
    _ = (((len : ℤ) - 1 : ℤ) : ℚ) := by push_cast; ring

theorem jsSlice_of_bounds (data : List ℕ) {a b : ℤ} (ha : 0 ≤ a)
    (hb : b ≤ (data.length : ℤ)) (hab : a ≤ b) :
    jsSlice data a b = (data.drop a.toNat).take (b.toNat - a.toNat) := by
  have hb0 : 0 ≤ b := le_trans ha hab
  have ha' : ¬ a < 0 := not_lt.mpr ha
  have hb' : ¬ b < 0 := not_lt.mpr hb0
  have hminA : min a.toNat data.length = a.toNat := by omega
  have hminB : min b.toNat data.length = b.toNat := by omega
  simp only [jsSlice, jsSliceBound, ha', hb', if_false, hminA, hminB]

end Pumper

/-- Quick sanity checks of the JS arithmetic embedding. -/
theorem jsRound_sanity :
    Pumper.jsRound (7/4) = 2 ∧ Pumper.jsRound (21/4) = 5 ∧
    Pumper.indexFor 25 100 8 = 2 ∧ Pumper.indexFor 75 100 8 = 5 ∧
    Pumper.jsSlice [0,0,10,200,200,10,0,0] 4 12 = [200,10,0,0] := by
  decide

/-- Sanity: the §8 scenario evaluates as expected on the embedding. -/
theorem scenario_sanity :
    Pumper.updateFromData (Pumper.newBand 25 75 127 30 1) [0,0,10,200,200,10,0,0] 100 =
      some (⟨25, 75, 127, 30, 1, 140, true, true⟩,
        [Pumper.Event.spike 140, Pumper.Event.overThreshold 13]) := by
  decide

namespace Pumper

/-- Intermediate step for the volume formula: under in-bounds indices the
raw volume is the inclusive-range sum divided by the span, times the scale. -/
theorem rawVolume_of_bounds (self : Band) (data : List ℕ) (mf : ℚ)
    {rs re : ℤ}
    (hrs : rs = indexFor self.startFreq mf data.length)
    (hre : re = indexFor self.endFreq mf data.length)
    (h0 : 0 ≤ rs) (hlt : rs < re) (hub : re < (data.length : ℤ)) :
    rawVolume self data mf =
      some (((inclusiveSum data rs.toNat re.toNat : ℕ) : ℚ) / (((re - rs) : ℤ) : ℚ)
        * self.volScale) := by
  have hne : re - rs ≠ 0 := by omega
  have hb : re + 1 ≤ (data.length : ℤ) := by omega
  have hslice : jsSlice data rs (re + 1) =
      (data.drop rs.toNat).take ((re + 1).toNat - rs.toNat) :=
    jsSlice_of_bounds data h0 hb (by omega)
  have htake : (re + 1).toNat - rs.toNat = re.toNat + 1 - rs.toNat := by omega
  have hsum : (jsSlice data rs (re + 1)).sum = inclusiveSum data rs.toNat re.toNat := by
    rw [hslice, htake]
    rfl
  simp only [rawVolume, ← hrs, ← hre, hne, if_false, hsum]

/--
C1 (functional correctness): on every refresh, for a range whose mapped bin
indices satisfy `rangeStart < rangeEnd` (and lie inside the snapshot), the
computed volume is the sum of the samples at indices `rangeStart` through
`rangeEnd` inclusive, divided by the span `rangeEnd - rangeStart`, times the
range's `volScale`.
-/
theorem volume_is_span_average (self : Band) (data : List ℕ) (mf : ℚ)
    {rs re : ℤ}
    (hrs : rs = indexFor self.startFreq mf data.length)
    (hre : re = indexFor self.endFreq mf data.length)
    (h0 : 0 ≤ rs) (hlt : rs < re) (hub : re < (data.length : ℤ)) :
    ∃ self' evs, updateFromData self data mf = some (self', evs) ∧
      self'.volume =
        ((inclusiveSum data rs.toNat re.toNat : ℕ) : ℚ) / (((re - rs) : ℤ) : ℚ)
          * self.volScale := by
  have hraw := rawVolume_of_bounds self data mf hrs hre h0 hlt hub
  exact ⟨postBand self _, postEvents self _, updateFromData_eq_some hraw, rfl⟩

/--
C1 witness: the §8 scenario.  Spectrum `[0,0,10,200,200,10,0,0]`, nyquist
100, range (25, 75) maps to indices 2..5, sum 420, span 3, volume 140, and
with threshold 127 the over-threshold flag is set.
-/
theorem volume_is_span_average_witness :
    (∃ self' evs,
        updateFromData (newBand 25 75 127 30 1) specData 100 = some (self', evs) ∧
        self'.volume =
          ((inclusiveSum specData (2 : ℤ).toNat (5 : ℤ).toNat : ℕ) : ℚ)
            / ((((5 : ℤ) - 2) : ℤ) : ℚ) * (newBand 25 75 127 30 1).volScale) ∧
    ((inclusiveSum specData 2 5 : ℕ) : ℚ) / 3 = 140 ∧
    updateFromData (newBand 25 75 127 30 1) specData 100 =
      some (⟨25, 75, 127, 30, 1, 140, true, true⟩,
        [Event.spike 140, Event.overThreshold 13]) := by
  refine ⟨@volume_is_span_average (newBand 25 75 127 30 1) specData 100
      2 5 (by decide) (by decide) (by decide) (by decide) (by decide),
    by decide, by decide⟩

/--
C2 (functional correctness): the bin index for frequency `f` is
`round((f / nyquist) * (N - 1))`; frequency 0 maps to index 0, frequency
`nyquist` maps to index `N - 1`, and a valid Hz range `s ≤ e` maps to bin
indices with `0 ≤ rangeStart ≤ rangeEnd ≤ N - 1`.
-/
theorem indexFor_spec (N : ℕ) (nyquist f s e : ℚ)
    (hN : 2 ≤ N) (hny : 0 < nyquist) (hf0 : 0 ≤ f) (hf1 : f ≤ nyquist)
    (hs0 : 0 ≤ s) (hse : s ≤ e) (he : e ≤ nyquist) :
    indexFor f nyquist N = jsRound ((f / nyquist) * ((N : ℚ) - 1)) ∧
    indexFor 0 nyquist N = 0 ∧
    indexFor nyquist nyquist N = (N : ℤ) - 1 ∧
    0 ≤ indexFor s nyquist N ∧
    indexFor s nyquist N ≤ indexFor e nyquist N ∧
    indexFor e nyquist N ≤ (N : ℤ) - 1 := by
  have hlen : 1 ≤ N := by omega
  exact ⟨rfl, indexFor_zero nyquist N, indexFor_max hny.ne' N,
    indexFor_nonneg hny hs0 hlen, indexFor_mono hny hlen hse,
    indexFor_le hny he hlen⟩

/-- C2 witness: `N = 8`, `nyquist = 100`, `f = 25`, range `(25, 75)`. -/
theorem indexFor_spec_witness :
    indexFor 25 100 8 = jsRound ((25 / 100) * (((8 : ℕ) : ℚ) - 1)) ∧
    indexFor 0 100 8 = 0 ∧
    indexFor 100 100 8 = ((8 : ℕ) : ℤ) - 1 ∧
    0 ≤ indexFor 25 100 8 ∧
    indexFor 25 100 8 ≤ indexFor 75 100 8 ∧
    indexFor 75 100 8 ≤ ((8 : ℕ) : ℤ) - 1 :=
  indexFor_spec 8 100 25 25 75 (by norm_num) (by norm_num) (by norm_num)
    (by norm_num) (by norm_num) (by norm_num) (by norm_num)

/--
C3 (safety): the code does NOT special-case a collapsed range.  For the band
(0, 0) over the snapshot `[5,0,0,0,0,0,0,0]` (nyquist 100) both bin indices
are 0, the span is 0, and `updateFromData` divides the total by zero — in JS
a non-finite value, in this model no well-defined volume at all — instead of
producing the single sample's value 5.
-/
theorem zeroSpan_no_volume :
    indexFor 0 100 8 = 0 ∧
    updateFromData (newBand 0 0 127 30 1) [5, 0, 0, 0, 0, 0, 0, 0] 100 = none := by
  decide

/--
C4 (functional correctness): after a tick, `isSpiking` is true exactly when
the new volume exceeds the previous one by more than `spikeTolerance`; with
a nonnegative tolerance a falling or flat volume never sets it.
-/
theorem isSpiking_iff_delta (self : Band) (data : List ℕ) (mf : ℚ)
    (self' : Band) (evs : List Event)
    (h : updateFromData self data mf = some (self', evs)) :
    (self'.isSpiking = true ↔ self.spikeTolerance < self'.volume - self.volume) ∧
    (0 ≤ self.spikeTolerance → self'.volume ≤ self.volume → self'.isSpiking = false) := by
  cases hraw : rawVolume self data mf with
  | none => rw [updateFromData_eq_none hraw] at h; exact Option.noConfusion h
  | some v =>
    rw [updateFromData_eq_some hraw] at h
    simp only [Option.some.injEq, Prod.mk.injEq] at h
    obtain ⟨hband, hevs⟩ := h
    subst hband
    constructor
    · simp [postBand, decide_eq_true_iff]
    · intro htol hle
      simp only [postBand] at hle ⊢
      simp only [decide_eq_false_iff_not, not_lt]
      linarith

/-- `rawVolume` depends only on the range configuration (`startFreq`,
`endFreq`, `volScale`), not on the mutable volume/flag state. -/
theorem rawVolume_congr {a b : Band} (h1 : a.startFreq = b.startFreq)
    (h2 : a.endFreq = b.endFreq) (h3 : a.volScale = b.volScale)
    (data : List ℕ) (mf : ℚ) : rawVolume a data mf = rawVolume b data mf := by
  simp only [rawVolume, h1, h2, h3]

/-- One successful `updateFromData` step admits a second step on the same
snapshot, and with a positive tolerance the second step clears `isSpiking`
(the delta is zero). -/
theorem updateFromData_stable {b b' : Band} {data : List ℕ} {mf : ℚ}
    {evs : List Event}
    (h : updateFromData b data mf = some (b', evs)) (htol : 0 < b.spikeTolerance) :
    ∃ b'' evs', updateFromData b' data mf = some (b'', evs') ∧ b''.isSpiking = false := by
  cases hraw : rawVolume b data mf with
  | none => rw [updateFromData_eq_none hraw] at h; exact Option.noConfusion h
  | some v =>
    rw [updateFromData_eq_some hraw] at h
    simp only [Option.some.injEq, Prod.mk.injEq] at h
    obtain ⟨hb', _⟩ := h
    have hraw' : rawVolume b' data mf = some v := by
      rw [← hb']
      exact (rawVolume_congr rfl rfl rfl data mf).trans hraw
    have hv : b'.volume = v := by rw [← hb']; rfl
    have htol' : b'.spikeTolerance = b.spikeTolerance := by rw [← hb']; rfl
    refine ⟨_, _, updateFromData_eq_some hraw', ?_⟩
    simp only [postBand, hv, htol', sub_self, decide_eq_false_iff_not, not_lt]
    linarith

/-- List version of `updateFromData_stable` for the band-updating loop. -/
theorem updateBands_stable {data : List ℕ} {mf : ℚ} :
    ∀ (bs bs' : List Band) (evs : List Event),
      updateBands data mf bs = some (bs', evs) →
      (∀ b ∈ bs, 0 < b.spikeTolerance) →
      ∃ bs'' evs', updateBands data mf bs' = some (bs'', evs') ∧
        ∀ b ∈ bs'', b.isSpiking = false
  | [], bs', evs, h, _ => by
    simp only [updateBands, Option.some.injEq, Prod.mk.injEq] at h
    obtain ⟨h1, _⟩ := h
    subst h1
    exact ⟨[], [], rfl, by simp⟩
  | b :: t, bs', evs, h, htol => by
    cases hu : updateFromData b data mf with
    | none => simp only [updateBands, hu] at h; exact Option.noConfusion h
    | some q =>
      obtain ⟨b₁, e₁⟩ := q
      cases ht : updateBands data mf t with
      | none => simp only [updateBands, hu, ht] at h; exact Option.noConfusion h
      | some r =>
        obtain ⟨t₁, e₂⟩ := r
        simp only [updateBands, hu, ht, Option.some.injEq, Prod.mk.injEq] at h
        obtain ⟨hbs', _⟩ := h
        obtain ⟨b₂, e₁', hb₂, hflag⟩ := updateFromData_stable hu (htol b (by simp))
        obtain ⟨t₂, e₂', ht₂, hflags⟩ :=
          updateBands_stable t t₁ e₂ ht (fun x hx => htol x (by simp [hx]))
        refine ⟨b₂ :: t₂, e₁' ++ e₂', ?_, ?_⟩
        · rw [← hbs']
          simp only [updateBands, hb₂, ht₂]
        · intro x hx
          rcases List.mem_cons.mp hx with h | h
          · rw [h]; exact hflag
          · exact hflags x h

/--
C5 (algebraic/relational): if every spike tolerance (global and per-band) is
strictly positive, refreshing twice with the same snapshot and sample rate
yields `isSpiking = false` for the global range and every band after the
second refresh.
-/
theorem update_eq_some {p : Pumper} {sr : ℚ} {data : List ℕ} {g' : Band}
    {evg : List Event} {bs' : List Band} {evb : List Event}
    (hg : updateFromData p.global data (sr / 2) = some (g', evg))
    (hb : updateBands data (sr / 2) p.bands = some (bs', evb)) :
    update p sr data = some (⟨g', sr, data, bs'⟩, evg ++ evb) := by
  simp only [update, maxFreq]
  simp only [hg, hb]

theorem refresh_twice_no_spike (p : Pumper) (sr : ℚ) (data : List ℕ)
    (p₁ : Pumper) (e₁ : List Event)
    (h : update p sr data = some (p₁, e₁))
    (hg : 0 < p.global.spikeTolerance)
    (hb : ∀ b ∈ p.bands, 0 < b.spikeTolerance) :
    ∃ p₂ e₂, update p₁ sr data = some (p₂, e₂) ∧
      p₂.global.isSpiking = false ∧ ∀ b ∈ p₂.bands, b.isSpiking = false := by
  simp only [update, maxFreq] at h
  cases hu : updateFromData p.global data (sr / 2) with
  | none => simp only [hu] at h; exact Option.noConfusion h
  | some q =>
    obtain ⟨g₁, eg⟩ := q
    cases ht : updateBands data (sr / 2) p.bands with
    | none => simp only [hu, ht] at h; exact Option.noConfusion h
    | some r =>
      obtain ⟨bs₁, eb⟩ := r
      simp only [hu, ht, Option.some.injEq, Prod.mk.injEq] at h
      obtain ⟨hp₁, _⟩ := h
      subst hp₁
      obtain ⟨g₂, eg', hg₂, hgflag⟩ := updateFromData_stable hu hg
      obtain ⟨bs₂, eb', hbs₂, hbflags⟩ := updateBands_stable p.bands bs₁ eb ht hb
      exact ⟨⟨g₂, sr, data, bs₂⟩, eg' ++ eb', update_eq_some hg₂ hbs₂, hgflag,
        by simpa using hbflags⟩

/--
C5 witness: a monitor with one band, tolerance 30 everywhere, refreshed
twice with snapshot `[40,50]` at sample rate 200: the second refresh leaves
no spike flag set anywhere.
-/
theorem refresh_twice_no_spike_witness :
    ∃ p₂ e₂,
      update ⟨⟨0, 100, 127, 30, 1, 90, false, true⟩, 200, [40, 50],
        [⟨10, 90, 127, 30, 1, 90, false, true⟩]⟩ 200 [40, 50] = some (p₂, e₂) ∧
      p₂.global.isSpiking = false ∧ ∀ b ∈ p₂.bands, b.isSpiking = false :=
  refresh_twice_no_spike exMonitor 200 [40, 50]
    ⟨⟨0, 100, 127, 30, 1, 90, false, true⟩, 200, [40, 50],
      [⟨10, 90, 127, 30, 1, 90, false, true⟩]⟩
    [Event.spike 90, Event.spike 90] (by decide) (by decide) (by decide)

/--
C6 (error handling): `createBand` fails with an error exactly when
`start < 0`, `start > nyquist`, `end < 0`, `end > nyquist` or `start > end`,
appending nothing on failure; otherwise it appends exactly one new band and
returns it.
-/
theorem createBand_spec (p : Pumper) (s e t tol v : ℚ) :
    ((s < 0 ∨ maxFreq p < s ∨ e < 0 ∨ maxFreq p < e ∨ e < s) →
      (createBand p s e t tol v).1 = p ∧
      ∃ msg, (createBand p s e t tol v).2 = Except.error msg) ∧
    (¬(s < 0 ∨ maxFreq p < s ∨ e < 0 ∨ maxFreq p < e ∨ e < s) →
      (createBand p s e t tol v).1 = { p with bands := p.bands ++ [newBand s e t tol v] } ∧
      (createBand p s e t tol v).2 = Except.ok (newBand s e t tol v)) := by
  unfold createBand
  split_ifs with h1 h2 h3
  · exact ⟨fun _ => ⟨rfl, _, rfl⟩, fun hn => absurd (by tauto) hn⟩
  · exact ⟨fun _ => ⟨rfl, _, rfl⟩, fun hn => absurd (by tauto) hn⟩
  · exact ⟨fun _ => ⟨rfl, _, rfl⟩, fun hn => absurd (by tauto) hn⟩
  · refine ⟨fun hcon => ?_, fun _ => ⟨rfl, rfl⟩⟩
    exfalso
    push_neg at h1 h2
    rcases hcon with h | h | h | h | h
    · exact absurd h (not_lt.mpr h1.1)
    · exact absurd h (not_lt.mpr h1.2)
    · exact absurd h (not_lt.mpr h2.1)
    · exact absurd h (not_lt.mpr h2.2)
    · exact h3 h

/--
C6 witness: on the nyquist-100 monitor, `createBand 10 5` (start > end)
fails and appends nothing; `createBand 10 90` succeeds and appends exactly
that band.
-/
theorem createBand_spec_witness :
    ((createBand exMonitor 10 5 127 30 1).1 = exMonitor ∧
      ∃ msg, (createBand exMonitor 10 5 127 30 1).2 = Except.error msg) ∧
    ((createBand exMonitor 10 90 127 30 1).1 =
        { exMonitor with bands := exMonitor.bands ++ [newBand 10 90 127 30 1] } ∧
      (createBand exMonitor 10 90 127 30 1).2 = Except.ok (newBand 10 90 127 30 1)) :=
  ⟨(createBand_spec exMonitor 10 5 127 30 1).1 (by right; right; right; right; norm_num),
    (createBand_spec exMonitor 10 90 127 30 1).2 (by
      simp only [exMonitor, maxFreq]
      norm_num)⟩

/--
C4 witness: global volume going 50 → 90 with tolerance 30 spikes (40 > 30);
a further tick 90 → 95 does not (5 ≤ 30).  Snapshot `[40,50]` gives volume
90 over the full range; `[45,50]` gives 95.
-/
theorem isSpiking_iff_delta_witness :
    ((true = true ↔ (30 : ℚ) < 90 - 50) ∧
      ((0 : ℚ) ≤ 30 → (90 : ℚ) ≤ 50 → true = false)) ∧
    ((false = true ↔ (30 : ℚ) < 95 - 90) ∧
      ((0 : ℚ) ≤ 30 → (95 : ℚ) ≤ 90 → false = false)) := by
  constructor
  · exact isSpiking_iff_delta ⟨0, 100, 127, 30, 1, 50, false, false⟩ [40, 50] 100
      ⟨0, 100, 127, 30, 1, 90, false, true⟩ [Event.spike 40] (by decide)
  · exact isSpiking_iff_delta ⟨0, 100, 127, 30, 1, 90, false, true⟩ [45, 50] 100
      ⟨0, 100, 127, 30, 1, 95, false, false⟩ [] (by decide)

/-- A valid `createBand` call appends exactly the new band. -/
theorem createBand_valid {p : Pumper} {s e : ℚ}
    (h : validArgs (maxFreq p) s e) (t tol v : ℚ) :
    createBand p s e t tol v =
      ({ p with bands := p.bands ++ [newBand s e t tol v] }, Except.ok (newBand s e t tol v)) := by
  obtain ⟨h1, h2, h3⟩ := h
  unfold createBand
  rw [if_neg h1, if_neg h2, if_neg h3]

/-- An invalid `createBand` call leaves the state unchanged and errors. -/
theorem createBand_invalid {p : Pumper} {s e : ℚ}
    (h : ¬ validArgs (maxFreq p) s e) (t tol v : ℚ) :
    ∃ msg, createBand p s e t tol v = (p, Except.error msg) := by
  unfold validArgs at h
  unfold createBand
  by_cases h1 : s < 0 ∨ maxFreq p < s
  · exact ⟨_, by rw [if_pos h1]⟩
  · by_cases h2 : e < 0 ∨ maxFreq p < e
    · exact ⟨_, by rw [if_neg h1, if_pos h2]⟩
    · have h3 : e < s := by tauto
      exact ⟨_, by rw [if_neg h1, if_neg h2, if_pos h3]⟩

/-- A `createBands` loop step whose sub-range passes validation appends the
generated band and continues with the next iteration. -/
theorem goBands_step_valid {start endF volStart volEnd bleed thr tol : ℚ}
    {count i rem : ℕ} {p : Pumper}
    (hv : validArgs (maxFreq p) (bandStart start endF bleed count i)
      (bandEnd start endF bleed count i)) :
    goBands start endF volStart volEnd bleed thr tol count p i (rem + 1) =
      (match goBands start endF volStart volEnd bleed thr tol count
          { p with bands := p.bands ++
            [genBand start endF bleed volStart volEnd count thr tol i] } (i + 1) rem with
        | (p'', Except.error e) => (p'', Except.error e)
        | (p'', Except.ok bs) =>
          (p'', Except.ok (genBand start endF bleed volStart volEnd count thr tol i :: bs))) := by
  rw [goBands, createBand_valid hv]
  rfl

/-- A `createBands` loop step whose sub-range fails validation stops with an
error, keeping the state it was given. -/
theorem goBands_step_invalid {start endF volStart volEnd bleed thr tol : ℚ}
    {count i rem : ℕ} {p : Pumper}
    (hv : ¬ validArgs (maxFreq p) (bandStart start endF bleed count i)
      (bandEnd start endF bleed count i)) :
    ∃ msg, goBands start endF volStart volEnd bleed thr tol count p i (rem + 1) =
      (p, Except.error msg) := by
  obtain ⟨msg, hcb⟩ := createBand_invalid hv thr tol (bandVol volStart volEnd count i)
  exact ⟨msg, by rw [goBands, hcb]⟩

/-- When the failing `createBands` loop stops with an error, the state keeps
exactly the bands created by the iterations before the first invalid
sub-range. -/
theorem goBands_error_char (start endF volStart volEnd bleed thr tol : ℚ) (count : ℕ) :
    ∀ (rem i : ℕ) (p p' : Pumper) (e : String),
      goBands start endF volStart volEnd bleed thr tol count p i rem = (p', Except.error e) →
      ∃ k, k < rem ∧
        p'.bands = p.bands ++ (List.range k).map
          (fun j => genBand start endF bleed volStart volEnd count thr tol (i + j)) ∧
        ¬ validArgs (maxFreq p) (bandStart start endF bleed count (i + k))
          (bandEnd start endF bleed count (i + k)) ∧
        ∀ j < k, validArgs (maxFreq p) (bandStart start endF bleed count (i + j))
          (bandEnd start endF bleed count (i + j))
  | 0, i, p, p', e, h => by
    simp only [goBands, Prod.mk.injEq] at h
    exact absurd h.2 (by simp)
  | rem + 1, i, p, p', e, h => by
    by_cases hv : validArgs (maxFreq p)
        (bandStart start endF bleed count i) (bandEnd start endF bleed count i)
    · rw [goBands_step_valid hv] at h
      cases hrec : goBands start endF volStart volEnd bleed thr tol count
          { p with bands := p.bands ++
              [genBand start endF bleed volStart volEnd count thr tol i] } (i + 1) rem with
      | mk p'' r =>
        rw [hrec] at h
        cases r with
        | ok bs => simp only [Prod.mk.injEq] at h; exact absurd h.2 (by simp)
        | error e' =>
          simp only [Prod.mk.injEq] at h
          obtain ⟨hp', _⟩ := h
          subst hp'
          obtain ⟨k, hk, hbands, hinv, hval⟩ :=
            goBands_error_char start endF volStart volEnd bleed thr tol count rem (i + 1) _ _ _ hrec
          refine ⟨k + 1, by omega, ?_, ?_, ?_⟩
          · rw [hbands]
            simp only [List.append_assoc, List.singleton_append]
            congr 1
            have hrange : List.range (k + 1) = 0 :: (List.range k).map Nat.succ :=
              List.range_succ_eq_map k
            rw [hrange]
            simp only [List.map_cons, List.map_map, Nat.add_zero, genBand]
            congr 1
            apply List.map_congr_left
            intro j _
            have : i + Nat.succ j = i + 1 + j := by omega
            simp only [Function.comp_apply, this]
          · have : i + (k + 1) = i + 1 + k := by omega
            rw [this]
            exact hinv
          · intro j hj
            rcases Nat.eq_zero_or_pos j with rfl | hpos
            · simpa using hv
            · obtain ⟨j', rfl⟩ := Nat.exists_eq_add_of_lt hpos
              have : i + (0 + j' + 1) = i + 1 + j' := by omega
              rw [this]
              exact hval j' (by omega)
    · obtain ⟨msg, hcb⟩ := createBand_invalid hv thr tol (bandVol volStart volEnd count i)
      rw [goBands, hcb] at h
      simp only [Prod.mk.injEq] at h
      obtain ⟨hp', _⟩ := h
      subst hp'
      refine ⟨0, by omega, by simp, by simpa using hv, by omega⟩

/--
C7 amended (error handling): `createRanges` is not all-or-nothing.  It fails
fast on the first sub-range that fails validation, creating no further
ranges, but the ranges created by the earlier iterations of the same call
remain registered: on failure the collection is the prior collection
extended by the generated prefix before the first invalid sub-range (which
is empty only when the first sub-range, or the overall interval, is
invalid).
-/
theorem createBands_error_keeps_created (p : Pumper) (start endF : ℚ) (count : ℕ)
    (volStart volEnd bleed : ℚ) (e : String)
    (h : (createBands p start endF count volStart volEnd bleed).2 = Except.error e) :
    (¬ validArgs (maxFreq p) start endF ∧
      (createBands p start endF count volStart volEnd bleed).1 = p) ∨
    (∃ k, k < count ∧
      (createBands p start endF count volStart volEnd bleed).1.bands =
        p.bands ++ (List.range k).map
          (fun j => genBand start endF bleed volStart volEnd count
            p.global.threshold p.global.spikeTolerance j) ∧
      ¬ validArgs (maxFreq p) (bandStart start endF bleed count k)
        (bandEnd start endF bleed count k) ∧
      ∀ j < k, validArgs (maxFreq p) (bandStart start endF bleed count j)
        (bandEnd start endF bleed count j)) := by
  by_cases h1 : start < 0 ∨ maxFreq p < start
  · exact Or.inl ⟨by unfold validArgs; tauto, by simp only [createBands, if_pos h1]⟩
  · by_cases h2 : endF < 0 ∨ maxFreq p < endF
    · refine Or.inl ⟨by unfold validArgs; tauto, ?_⟩
      simp only [createBands, if_neg h1, if_pos h2]
    · by_cases h3 : endF < start
      · refine Or.inl ⟨by unfold validArgs; tauto, ?_⟩
        simp only [createBands, if_neg h1, if_neg h2, if_pos h3]
      · right
        have hc : createBands p start endF count volStart volEnd bleed =
            goBands start endF volStart volEnd bleed p.global.threshold
              p.global.spikeTolerance count p 0 count := by
          simp only [createBands, if_neg h1, if_neg h2, if_neg h3]
        rw [hc] at h ⊢
        cases hgb : goBands start endF volStart volEnd bleed p.global.threshold
            p.global.spikeTolerance count p 0 count with
        | mk p' r =>
          rw [hgb] at h
          simp only at h
          subst h
          obtain ⟨k, hk, hbands, hinv, hval⟩ :=
            goBands_error_char start endF volStart volEnd bleed p.global.threshold
              p.global.spikeTolerance count count 0 p p' e hgb
          refine ⟨k, hk, ?_, by simpa using hinv, fun j hj => by simpa using hval j hj⟩
          show p'.bands = _
          rw [hbands]
          congr 1
          apply List.map_congr_left
          intro j _
          rw [Nat.zero_add]

/--
C7 counterexample: on a nyquist-95 monitor, `createRanges(30, 90, 2, 1, 1,
0.2)` generates sub-ranges (24, 66) and (54, 96); the second exceeds the
nyquist, so the call fails — yet the band (24, 66) created by the first
iteration remains registered, so the ranges collection is NOT what it was
before the call.
-/
theorem createBands_not_atomic :
    (createBands exMonitor95 30 90 2 1 1 (1/5)).2 = Except.error "Invalid end frequency" ∧
    (createBands exMonitor95 30 90 2 1 1 (1/5)).1.bands = [newBand 24 66 127 30 1] ∧
    exMonitor95.bands = [] := by
  decide

/-- C7 witness: the characterization applied to the nyquist-95 scenario. -/
theorem createBands_error_keeps_created_witness :
    (¬ validArgs (maxFreq exMonitor95) 30 90 ∧
      (createBands exMonitor95 30 90 2 1 1 (1/5)).1 = exMonitor95) ∨
    (∃ k, k < 2 ∧
      (createBands exMonitor95 30 90 2 1 1 (1/5)).1.bands =
        exMonitor95.bands ++ (List.range k).map
          (fun j => genBand 30 90 (1/5) 1 1 2
            exMonitor95.global.threshold exMonitor95.global.spikeTolerance j) ∧
      ¬ validArgs (maxFreq exMonitor95) (bandStart 30 90 (1/5) 2 k)
        (bandEnd 30 90 (1/5) 2 k) ∧
      ∀ j < k, validArgs (maxFreq exMonitor95) (bandStart 30 90 (1/5) 2 j)
        (bandEnd 30 90 (1/5) 2 j)) :=
  createBands_error_keeps_created exMonitor95 30 90 2 1 1 (1/5)
    "Invalid end frequency" (by decide)

/-- When every sub-range passes validation, the `createBands` loop appends
exactly the generated bands and returns them in order. -/
theorem goBands_ok_of_valid (start endF volStart volEnd bleed thr tol : ℚ) (count : ℕ) :
    ∀ (rem i : ℕ) (p : Pumper),
      (∀ j, i ≤ j → j < i + rem →
        validArgs (maxFreq p) (bandStart start endF bleed count j)
          (bandEnd start endF bleed count j)) →
      goBands start endF volStart volEnd bleed thr tol count p i rem =
        ({ p with bands := p.bands ++ genBands start endF bleed volStart volEnd count thr tol i rem },
          Except.ok (genBands start endF bleed volStart volEnd count thr tol i rem))
  | 0, i, p, _ => by simp [goBands, genBands]
  | rem + 1, i, p, hval => by
    rw [goBands_step_valid (hval i le_rfl (by omega))]
    rw [goBands_ok_of_valid start endF volStart volEnd bleed thr tol count rem (i + 1)
      { p with bands := p.bands ++ [genBand start endF bleed volStart volEnd count thr tol i] }
      (fun j hj1 hj2 => hval j (by omega) (by omega))]
    have hshift : genBands start endF bleed volStart volEnd count thr tol i (rem + 1) =
        genBand start endF bleed volStart volEnd count thr tol i ::
          genBands start endF bleed volStart volEnd count thr tol (i + 1) rem := by
      unfold genBands
      rw [List.range_succ_eq_map]
      simp only [List.map_cons, List.map_map, Nat.add_zero]
      congr 1
      apply List.map_congr_left
      intro j _
      have : i + Nat.succ j = i + 1 + j := by omega
      simp only [Function.comp_apply, this]
    rw [hshift]
    simp only [List.append_assoc, List.singleton_append]

/--
C8 (functional correctness): on any monitor whose nyquist is at least 100,
`createRanges(0, 100, 4, 1, 2, 0)` creates exactly 4 ranges with `volScale`
1, 5/4, 3/2, 7/4 and contiguous, non-overlapping (start, end) pairs
(0,25), (25,50), (50,75), (75,100), each of width 25, appending them in
order.
-/
theorem createRanges_partition (p : Pumper) (h : (100 : ℚ) ≤ maxFreq p) :
    createBands p 0 100 4 1 2 0 =
      ({ p with bands := p.bands ++
          [newBand 0 25 p.global.threshold p.global.spikeTolerance 1,
           newBand 25 50 p.global.threshold p.global.spikeTolerance (5/4),
           newBand 50 75 p.global.threshold p.global.spikeTolerance (3/2),
           newBand 75 100 p.global.threshold p.global.spikeTolerance (7/4)] },
        Except.ok
          [newBand 0 25 p.global.threshold p.global.spikeTolerance 1,
           newBand 25 50 p.global.threshold p.global.spikeTolerance (5/4),
           newBand 50 75 p.global.threshold p.global.spikeTolerance (3/2),
           newBand 75 100 p.global.threshold p.global.spikeTolerance (7/4)]) := by
  have h1 : ¬((0 : ℚ) < 0 ∨ maxFreq p < 0) := by push_neg; constructor <;> linarith
  have h2 : ¬((100 : ℚ) < 0 ∨ maxFreq p < 100) := by push_neg; constructor <;> linarith
  have h3 : ¬((100 : ℚ) < 0) := by norm_num
  have hval : ∀ j, 0 ≤ j → j < 0 + 4 →
      validArgs (maxFreq p) (bandStart 0 100 0 4 j) (bandEnd 0 100 0 4 j) := by
    intro j _ hj2
    have hj : j < 4 := by omega
    unfold validArgs bandStart bandEnd
    push_neg
    interval_cases j <;> refine ⟨⟨by norm_num, by norm_num; linarith⟩,
      ⟨by norm_num, by norm_num; linarith⟩, by norm_num⟩
  simp only [createBands, if_neg h1, if_neg h2, if_neg h3]
  rw [goBands_ok_of_valid 0 100 1 2 0 p.global.threshold p.global.spikeTolerance 4 4 0 p hval]
  norm_num [genBands, genBand, bandStart, bandEnd, bandVol, List.range_succ, newBand]

/-- C8 witness: the partition on the concrete nyquist-100 monitor. -/
theorem createRanges_partition_witness :
    createBands exMonitor 0 100 4 1 2 0 =
      ({ exMonitor with bands := exMonitor.bands ++
          [newBand 0 25 exMonitor.global.threshold exMonitor.global.spikeTolerance 1,
           newBand 25 50 exMonitor.global.threshold exMonitor.global.spikeTolerance (5/4),
           newBand 50 75 exMonitor.global.threshold exMonitor.global.spikeTolerance (3/2),
           newBand 75 100 exMonitor.global.threshold exMonitor.global.spikeTolerance (7/4)] },
        Except.ok
          [newBand 0 25 exMonitor.global.threshold exMonitor.global.spikeTolerance 1,
           newBand 25 50 exMonitor.global.threshold exMonitor.global.spikeTolerance (5/4),
           newBand 50 75 exMonitor.global.threshold exMonitor.global.spikeTolerance (3/2),
           newBand 75 100 exMonitor.global.threshold exMonitor.global.spikeTolerance (7/4)]) :=
  createRanges_partition exMonitor (by norm_num [maxFreq, exMonitor])

/--
C9 amended (temporal): during a tick, the spike hook fires exactly when the
delta condition holds in that tick and the threshold hook exactly when the
volume exceeds the threshold in that tick — once per such tick, passing the
delta resp. the overage — regardless of whether the condition held on the
previous tick; no hook fires in a tick in which its condition is false.
-/
theorem hooks_fire_iff (b : Band) (data : List ℕ) (mf : ℚ) (b' : Band) (evs : List Event)
    (h : updateFromData b data mf = some (b', evs)) :
    evs = (if b.spikeTolerance < b'.volume - b.volume
            then [Event.spike (b'.volume - b.volume)] else []) ++
          (if b.threshold < b'.volume
            then [Event.overThreshold (b'.volume - b.threshold)] else []) := by
  cases hraw : rawVolume b data mf with
  | none => rw [updateFromData_eq_none hraw] at h; exact Option.noConfusion h
  | some v =>
    rw [updateFromData_eq_some hraw] at h
    simp only [Option.some.injEq, Prod.mk.injEq] at h
    obtain ⟨hb, he⟩ := h
    have hv : b'.volume = v := by rw [← hb]; rfl
    rw [← he, postEvents, hv]

/-- C9 witness: first tick of band (0, 100) over `[200, 200]`: volume 400,
delta 400 > 30 and 400 > 127, so both hooks fire with delta 400 and
overage 273. -/
theorem hooks_fire_iff_witness :
    [Event.spike 400, Event.overThreshold 273] =
      (if (30 : ℚ) < (400 : ℚ) - 0 then [Event.spike ((400 : ℚ) - 0)] else []) ++
      (if (127 : ℚ) < (400 : ℚ) then [Event.overThreshold ((400 : ℚ) - 127)] else []) :=
  hooks_fire_iff (newBand 0 100 127 30 1) [200, 200] 100
    ⟨0, 100, 127, 30, 1, 400, true, true⟩
    [Event.spike 400, Event.overThreshold 273] (by decide)

/--
C9 counterexample: two ticks on the same snapshot `[200, 200]`.  After the
first tick the band is over threshold (`isOverThreshold = true`).  On the
second tick the volume is unchanged (400 > 127): the condition merely
remains true, yet the threshold hook fires again — the code fires hooks in
every tick in which the condition holds, not only when it newly becomes
true.
-/
theorem hooks_refire_on_sustained_condition :
    updateFromData (newBand 0 100 127 30 1) [200, 200] 100 =
      some (⟨0, 100, 127, 30, 1, 400, true, true⟩,
        [Event.spike 400, Event.overThreshold 273]) ∧
    (⟨0, 100, 127, 30, 1, 400, true, true⟩ : Band).isOverThreshold = true ∧
    updateFromData ⟨0, 100, 127, 30, 1, 400, true, true⟩ [200, 200] 100 =
      some (⟨0, 100, 127, 30, 1, 400, true, false⟩, [Event.overThreshold 273]) := by
  decide

/--
C10 counterexample: a sample-rate decrease that leaves `endFreq` above the
new nyquist need not push the computed bin index past `N - 1`: with
`endFreq = 100 > nyquist = 99` and `N = 8`, the index is
`round((100/99) * 7) = 7 = N - 1`.
-/
theorem stale_band_index_in_range :
    (99 : ℚ) < 100 ∧ indexFor 100 99 8 = 7 ∧ ¬ ((8 : ℤ) - 1 < indexFor 100 99 8) := by
  decide

/--
C10 amended (safety): band validity is checked only against the nyquist at
creation time and refresh re-checks nothing.  Band (25, 75) is accepted at
nyquist 100; after the sample rate drops to 100 (nyquist 50) the refresh
still succeeds, the mapped end index is `round((75/50)*7) = 11 > 7 = N - 1`,
the slice is clamped to the snapshot end while the divisor stays the
unclamped span `11 - 4 = 7`, and the band's computed volume 30 is NOT the
average of the snapshot samples of its range (the samples at indices 4..7
average to 70 over the clamped span 3).
-/
theorem stale_band_not_average :
    (createBand exMonitor100 25 75 127 30 1).2 = Except.ok (newBand 25 75 127 30 1) ∧
    indexFor 25 50 8 = 4 ∧ indexFor 75 50 8 = 11 ∧ ((8 : ℤ) - 1 < 11) ∧
    update (createBand exMonitor100 25 75 127 30 1).1 100 specData =
      some (⟨⟨0, 50, 127, 30, 1, 60, false, true⟩, 100, specData,
        [⟨25, 75, 127, 30, 1, 30, false, false⟩]⟩, [Event.spike 60]) ∧
    ((30 : ℚ) ≠ ((inclusiveSum specData 4 7 : ℕ) : ℚ) / ((7 : ℚ) - 4)) := by
  decide

end Pumper
